import Mathlib

/-!
Shallow embedding of the dynamic-array container `MyVector<T_, Alloc_>`
from `source/MyVector.h`, together with proofs about its public operations.

Buffers are modelled as optional lists of cells: `none` is a null buffer
pointer (`data_ == nullptr`), `some l` a heap block whose slots are either
raw memory (`Cell.uninit`), a live constructed element (`Cell.live a`),
or a moved-from element (`Cell.moved`).  Destroying a slot returns it to
raw memory.  Exceptions thrown by element constructors are modelled by an
oracle `fails : Nat → Bool` saying which construction inside an operation
throws; operations that can propagate such an exception return, next to
the container state, a `Bool` recording whether they threw.
-/

/-- State of one allocated slot of a buffer: raw memory, a live element,
or a moved-from element. -/
inductive Cell (α : Type) where
  | uninit : Cell α
  | live (a : α) : Cell α
  | moved : Cell α
deriving DecidableEq

variable {α : Type}

/-- Move-construction target built from a source slot (`construct(p, std::move(src))`):
moving from a live element yields that element; moving from anything else is
undefined behaviour, modelled as propagating the junk state. -/
def Cell.moveTarget : Cell α → Cell α
  | .live a => .live a
  | c => c

/-- What a slot becomes after its element is moved from (but not destroyed). -/
def Cell.afterMovedFrom : Cell α → Cell α
  | .live _ => .moved
  | c => c

/-- Number of slots in a possibly-null buffer (0 for a null pointer). -/
def bufLen (b : Option (List (Cell α))) : Nat := (b.getD []).length

/-- Read slot `i` of a possibly-null buffer; out-of-bounds or null reads are
undefined behaviour, modelled as raw memory. -/
def bufGet (b : Option (List (Cell α))) (i : Nat) : Cell α :=
  (b.getD []).getD i Cell.uninit

/-- Write slot `i` of a possibly-null buffer; writes through null or past the
end are undefined behaviour, modelled as a no-op. -/
def bufSet (b : Option (List (Cell α))) (i : Nat) (c : Cell α) : Option (List (Cell α)) :=
  b.map fun l => l.set i c

/-- The data model of `MyVector<T_>`: buffer pointer `data_` (null when
`none`), element count `size_`, slot count `capacity_`.  The allocator
member is stateless in all claims considered and is not modelled. -/
structure MyVector (α : Type) where
  data_ : Option (List (Cell α))
  size_ : Nat
  capacity_ : Nat
deriving DecidableEq

namespace MyVector

/-- `MyVector()` — the default constructor: null buffer, size 0, capacity 0. -/
def default : MyVector α := ⟨none, 0, 0⟩

/-- Loop of `reallocate`: for `i` in `[i, i+k)`, `construct(new_data + i,
std::move(data_[i])); destroy(data_ + i);` — the target slot receives the
moved value; the freshly built new buffer is returned (the old buffer is
deallocated by the caller on this path). -/
def moveAll (old : Option (List (Cell α))) : List (Cell α) → Nat → Nat → List (Cell α)
  | nw, _, 0 => nw
  | nw, i, k + 1 => moveAll old (nw.set i (bufGet old i).moveTarget) (i + 1) k

/-- `reallocate(new_capacity)` (non-throwing element type): allocate
`new_capacity` raw slots, move every live element across destroying each
old slot, deallocate the old buffer, adopt the new buffer and capacity. -/
def reallocate (v : MyVector α) (new_capacity : Nat) : MyVector α :=
  ⟨some (moveAll v.data_ (List.replicate new_capacity Cell.uninit) 0 v.size_),
   v.size_, new_capacity⟩

/-- `reserve(n)`: `if (n <= capacity_) return; reallocate(n);`. -/
def reserve (v : MyVector α) (n : Nat) : MyVector α :=
  if n ≤ v.capacity_ then v else v.reallocate n

/-- `push_back(value)`: grow by doubling (`capacity_ ? capacity_ * 2 : 1`)
when `size_ >= capacity_`, then construct the value in the next slot. -/
def push_back (v : MyVector α) (value : α) : MyVector α :=
  let w := if v.capacity_ ≤ v.size_
    then v.reserve (if v.capacity_ ≠ 0 then v.capacity_ * 2 else 1)
    else v
  { w with data_ := bufSet w.data_ w.size_ (Cell.live value), size_ := w.size_ + 1 }

/-- `pop_back()`: if non-empty, destroy the last element and decrement size. -/
def pop_back (v : MyVector α) : MyVector α :=
  if 0 < v.size_ then
    { v with data_ := bufSet v.data_ (v.size_ - 1) Cell.uninit, size_ := v.size_ - 1 }
  else v

/-- Destruction loop: `destroy(data_ + i)` for `i` in `[i, i+k)`. -/
def destroyRange : Option (List (Cell α)) → Nat → Nat → Option (List (Cell α))
  | b, _, 0 => b
  | b, i, k + 1 => destroyRange (bufSet b i Cell.uninit) (i + 1) k

/-- Default-construction loop of `resize` growth: `construct(data_ + i)`
for `i` in `[i, i+k)`. -/
def constructRange [Inhabited α] : Option (List (Cell α)) → Nat → Nat → Option (List (Cell α))
  | b, _, 0 => b
  | b, i, k + 1 => constructRange (bufSet b i (Cell.live Inhabited.default)) (i + 1) k

/-- `resize(new_size)`.  Shrinking destroys `[new_size, size_)`.  The growth
branch of the source iterates `for (i = new_size; i < size_; ++i)`, a range
that is empty when `new_size > size_` (its length is `size_ - new_size`,
which truncates to 0); no reserve call is made.  Finally `size_ = new_size`. -/
def resize [Inhabited α] (v : MyVector α) (new_size : Nat) : MyVector α :=
  let w :=
    if new_size < v.size_ then
      { v with data_ := destroyRange v.data_ new_size (v.size_ - new_size) }
    else if v.size_ < new_size then
      { v with data_ := constructRange v.data_ new_size (v.size_ - new_size) }
    else v
  { w with size_ := new_size }

/-- `clear()`: destroy `[0, size_)`, set size to 0; buffer and capacity kept. -/
def clear (v : MyVector α) : MyVector α :=
  { v with data_ := destroyRange v.data_ 0 v.size_, size_ := 0 }

/-- Error signals raised by the container: `std::out_of_range` from `at`,
`std::runtime_error` from `front`/`back` on an empty container. -/
inductive VecError where
  | outOfRange : VecError
  | emptyContainer : VecError
deriving DecidableEq

/-- `at(index)`: `if (index >= size_) throw std::out_of_range(...); return
data_[index];` — returns the referenced slot. -/
def at_ (v : MyVector α) (index : Nat) : Except VecError (Cell α) :=
  if v.size_ ≤ index then .error .outOfRange else .ok (bufGet v.data_ index)

/-- `operator[](index)`: unchecked access `data_[index]`. -/
def getIdx (v : MyVector α) (index : Nat) : Cell α := bufGet v.data_ index

/-- `empty()`: `size_ == 0`. -/
def empty (v : MyVector α) : Bool := v.size_ == 0

/-- `front()`: throws on an empty container, otherwise returns `*begin()`,
i.e. the slot `data_[0]`. -/
def front (v : MyVector α) : Except VecError (Cell α) :=
  if v.size_ = 0 then .error .emptyContainer else .ok (bufGet v.data_ 0)

/-- `back()`: throws on an empty container, otherwise returns `*(end()-1)`,
i.e. the slot `data_[size_ - 1]`. -/
def back (v : MyVector α) : Except VecError (Cell α) :=
  if v.size_ = 0 then .error .emptyContainer else .ok (bufGet v.data_ (v.size_ - 1))

/-- `data()`: `if (empty()) return nullptr; return to_address(begin());` —
the returned pointer is modelled by the buffer it designates, `none` being
the null pointer. -/
def data (v : MyVector α) : Option (List (Cell α)) :=
  if v.size_ = 0 then none else v.data_

/-- `operator=(MyVector&&)` on the branch `this != &other`: clears and
deallocates the current buffer, copies the source's fields into `this`,
and then executes the source's final three statements `data_ = nullptr;
size_ = 0; capacity_ = 0;` — which null out `this` (the statements name the
members of the assigned-to object).  The source object is never written.
Returns (new value of `*this*`, new value of `other`). -/
def moveAssign (this other : MyVector α) : MyVector α × MyVector α :=
  let t0 := this.clear
  let _t1 : MyVector α := { t0 with data_ := none }
  let t2 : MyVector α :=
    { data_ := other.data_, size_ := other.size_, capacity_ := other.capacity_ }
  let t3 : MyVector α := { t2 with data_ := none, size_ := 0, capacity_ := 0 }
  (t3, other)

/-- Copy loop of copy assignment / copy construction: `construct(data_ + i,
other.data_[i])` for `i` in `[i, i+k)`. -/
def copyLoop (src : Option (List (Cell α))) : Option (List (Cell α)) → Nat → Nat → Option (List (Cell α))
  | dst, _, 0 => dst
  | dst, i, k + 1 => copyLoop src (bufSet dst i (bufGet src i)) (i + 1) k

/-- `operator=(const MyVector&)` on the branch `this != &other`: clear,
reserve the source's capacity, copy-construct the source's elements,
adopt the source's size. -/
def copyAssign (this other : MyVector α) : MyVector α :=
  let t0 := this.clear
  let t1 := t0.reserve other.capacity_
  let t2 : MyVector α := { t1 with data_ := copyLoop other.data_ t1.data_ 0 other.size_ }
  { t2 with size_ := other.size_ }

/-- Fill loop of the sized constructor: `construct(data_ + i, value)`. -/
def fillLoop (value : α) : Option (List (Cell α)) → Nat → Nat → Option (List (Cell α))
  | dst, _, 0 => dst
  | dst, i, k + 1 => fillLoop value (bufSet dst i (Cell.live value)) (i + 1) k

/-- `MyVector(n, value)`: reserve `n` slots from a fresh object, construct
`n` copies of `value`, set size to `n`.  (The stray `alloc_.allocate(n)`
in the source leaks a second block but changes no member field.) -/
def ctorSized (n : Nat) (value : α) : MyVector α :=
  let t0 := (MyVector.default : MyVector α).reserve n
  let t1 : MyVector α := { t0 with data_ := fillLoop value t0.data_ 0 n }
  { t1 with size_ := n }

/-- Fill-from-range loop of the iterator-pair constructor. -/
def fillFrom : List α → Option (List (Cell α)) → Nat → Option (List (Cell α))
  | [], dst, _ => dst
  | x :: xs, dst, i => fillFrom xs (bufSet dst i (Cell.live x)) (i + 1)

/-- `MyVector(first, last)` / `MyVector(initializer_list)`: reserve the
range's length, copy-construct each range element in order, set size. -/
def ctorRange (xs : List α) : MyVector α :=
  let t0 := (MyVector.default : MyVector α).reserve xs.length
  let t1 : MyVector α := { t0 with data_ := fillFrom xs t0.data_ 0 }
  { t1 with size_ := xs.length }

/-- `swap(other)`: exchanges `data_`, `size_` and `capacity_` of the two
containers; returns (new `*this*`, new `other`). -/
def swap (this other : MyVector α) : MyVector α × MyVector α :=
  (⟨other.data_, other.size_, other.capacity_⟩, ⟨this.data_, this.size_, this.capacity_⟩)

/-- `assing(n, val)`: `clear()` followed by `n` calls `push_back(std::move(val))`
(`val` is a const reference, so the copying overload of `push_back` is chosen). -/
def assing (v : MyVector α) (n : Nat) (val : α) : MyVector α :=
  Nat.rec v.clear (fun _ w => w.push_back val) n

/-- Repeated `push_back` of the values of a list, front to back. -/
def pushList (v : MyVector α) : List α → MyVector α
  | [] => v
  | x :: xs => pushList (v.push_back x) xs

/-- The sequence of slots visited by forward iteration from `begin()`
(address `data_`) to `end()` (address `data_ + size_`). -/
def iterToList (v : MyVector α) : List (Cell α) :=
  (v.data_.getD []).take v.size_

/-- `n` `push_back`s of `x` starting from a default-constructed vector,
together with the number of growth events (executions of the
`size_ >= capacity_` branch, each of which reallocates) so far. -/
def simulate (x : α) : Nat → MyVector α × Nat
  | 0 => ((MyVector.default : MyVector α), 0)
  | n + 1 =>
    ((simulate x n).1.push_back x,
     if (simulate x n).1.capacity_ ≤ (simulate x n).1.size_
       then (simulate x n).2 + 1 else (simulate x n).2)

/-- Loop of `reallocate` under an exception oracle: `fails i = true` means
the move-construction of element `i` into the new buffer throws.  Each
successful step moves `data_[i]` into the new buffer and destroys the old
slot.  Returns (old buffer, new buffer, index of the throwing step if any). -/
def moveLoopE (fails : Nat → Bool) :
    Option (List (Cell α)) → List (Cell α) → Nat → Nat →
    Option (List (Cell α)) × List (Cell α) × Option Nat
  | old, nw, _, 0 => (old, nw, none)
  | old, nw, i, k + 1 =>
    if fails i then (old, nw, some i)
    else moveLoopE fails (bufSet old i Cell.uninit)
      (nw.set i (bufGet old i).moveTarget) (i + 1) k

/-- `reallocate(new_capacity)` under an exception oracle.  On a throw at
step `i` the catch block destroys the `i` elements already constructed in
the new buffer and deallocates it, then rethrows; the member fields are
unchanged (but the old buffer has lost its first `i` elements).  The `Bool`
records whether the call threw. -/
def reallocateE (v : MyVector α) (new_capacity : Nat) (fails : Nat → Bool) :
    MyVector α × Bool :=
  match moveLoopE fails v.data_ (List.replicate new_capacity Cell.uninit) 0 v.size_ with
  | (old, _, some _) => ({ v with data_ := old }, true)
  | (_, nw, none) => (⟨some nw, v.size_, new_capacity⟩, false)

/-- `reserve(n)` under an exception oracle. -/
def reserveE (v : MyVector α) (n : Nat) (fails : Nat → Bool) : MyVector α × Bool :=
  if n ≤ v.capacity_ then (v, false) else reallocateE v n fails

/-- `push_back(value)` under an exception oracle for the reallocation step;
a throw inside `reserve` propagates out of `push_back` before the new
element is constructed. -/
def push_backE (v : MyVector α) (value : α) (fails : Nat → Bool) :
    MyVector α × Bool :=
  if v.capacity_ ≤ v.size_ then
    match reserveE v (if v.capacity_ ≠ 0 then v.capacity_ * 2 else 1) fails with
    | (w, true) => (w, true)
    | (w, false) =>
      ({ w with data_ := bufSet w.data_ w.size_ (Cell.live value), size_ := w.size_ + 1 }, false)
  else
    ({ v with data_ := bufSet v.data_ v.size_ (Cell.live value), size_ := v.size_ + 1 }, false)

/-- Loop of `shrink_to_fit` under an exception oracle: move-constructs
`data_[i]` into the new buffer WITHOUT destroying the old slot (the old
slot is merely moved from); old elements are destroyed only later, after
the whole loop succeeds. -/
def shrinkLoopE (fails : Nat → Bool) :
    Option (List (Cell α)) → List (Cell α) → Nat → Nat →
    Option (List (Cell α)) × List (Cell α) × Option Nat
  | old, nw, _, 0 => (old, nw, none)
  | old, nw, i, k + 1 =>
    if fails i then (old, nw, some i)
    else shrinkLoopE fails (bufSet old i (bufGet old i).afterMovedFrom)
      (nw.set i (bufGet old i).moveTarget) (i + 1) k

/-- Result of `shrink_to_fit`: the container state, whether the call threw,
and — when the catch path deallocated the new buffer — the exact contents
of that buffer at the moment it was released (the catch block of the
source deallocates it without destroying the elements constructed in it). -/
structure ShrinkResult (α : Type) where
  vec : MyVector α
  threw : Bool
  freedNew : Option (List (Cell α))
deriving DecidableEq

/-- `shrink_to_fit()` under an exception oracle.  No-op when
`capacity_ == size_`; otherwise allocates `size_` slots, move-constructs
every element, and on success destroys the old elements, releases the old
buffer and adopts the new one.  On a throw the catch block only
deallocates the new buffer (recorded in `freedNew`) and rethrows. -/
def shrink_to_fitE (v : MyVector α) (fails : Nat → Bool) : ShrinkResult α :=
  if v.capacity_ = v.size_ then ⟨v, false, none⟩
  else
    match shrinkLoopE fails v.data_ (List.replicate v.size_ Cell.uninit) 0 v.size_ with
    | (old, nw, some _) => ⟨{ v with data_ := old }, true, some nw⟩
    | (_, nw, none) => ⟨⟨some nw, v.size_, v.size_⟩, false, none⟩

/-- A container state whose first `size_` slots are exactly the live
elements `xs`, with a buffer of exactly `capacity_` slots. -/
structure GoodState (v : MyVector α) (xs : List α) : Prop where
  size_eq : v.size_ = xs.length
  size_le : v.size_ ≤ v.capacity_
  buf_len : bufLen v.data_ = v.capacity_
  cells : ∀ i (h : i < xs.length), bufGet v.data_ i = Cell.live xs[i]

/-- Well-formed buffer bookkeeping: the allocated block has exactly
`capacity_` slots (and the null buffer has capacity 0). -/
def BufOk (v : MyVector α) : Prop := bufLen v.data_ = v.capacity_

/-- The states reachable from a constructed vector by sequences of the
public operations, with each `resize` call restricted to
`new_size <= capacity()` (the caller-responsibility contract for resize
growth flagged in the specification). -/
inductive Reachable [Inhabited α] : MyVector α → Prop where
  | init : Reachable (MyVector.default : MyVector α)
  | sized (n : Nat) (value : α) : Reachable (ctorSized n value)
  | ranged (xs : List α) : Reachable (ctorRange xs)
  | push (v : MyVector α) (x : α) : Reachable v → Reachable (v.push_back x)
  | pop (v : MyVector α) : Reachable v → Reachable v.pop_back
  | res (v : MyVector α) (n : Nat) : Reachable v → n ≤ v.capacity_ → Reachable (v.resize n)
  | resv (v : MyVector α) (n : Nat) : Reachable v → Reachable (v.reserve n)
  | clr (v : MyVector α) : Reachable v → Reachable v.clear
  | shrink (v : MyVector α) (fails : Nat → Bool) :
      Reachable v → Reachable (v.shrink_to_fitE fails).vec
  | swapL (v w : MyVector α) : Reachable v → Reachable w → Reachable (v.swap w).1
  | swapR (v w : MyVector α) : Reachable v → Reachable w → Reachable (v.swap w).2
  | mvAsgL (v w : MyVector α) : Reachable v → Reachable w → Reachable (v.moveAssign w).1
  | mvAsgR (v w : MyVector α) : Reachable v → Reachable w → Reachable (v.moveAssign w).2
  | cpAsg (v w : MyVector α) : Reachable v → Reachable w → Reachable (v.copyAssign w)
  | asg (v : MyVector α) (n : Nat) (val : α) : Reachable v → Reachable (v.assing n val)

end MyVector

namespace MyVector

/-! ### Buffer lemmas -/

theorem bufLen_bufSet (b : Option (List (Cell α))) (i : Nat) (c : Cell α) :
    bufLen (bufSet b i c) = bufLen b := by
  cases b <;> simp [bufLen, bufSet]

theorem isSome_bufSet (b : Option (List (Cell α))) (i : Nat) (c : Cell α) :
    (bufSet b i c).isSome = b.isSome := by
  cases b <;> simp [bufSet]

theorem bufGet_oob {b : Option (List (Cell α))} {j : Nat} (h : bufLen b ≤ j) :
    bufGet b j = Cell.uninit := by
  cases b with
  | none => simp [bufGet]
  | some l =>
    simp only [bufLen, Option.getD_some] at h
    simp only [bufGet, Option.getD_some, List.getD_eq_getElem?_getD]
    rw [List.getElem?_eq_none h]
    rfl

theorem bufGet_bufSet (b : Option (List (Cell α))) (i j : Nat) (c : Cell α) :
    bufGet (bufSet b i c) j =
      if i = j ∧ i < bufLen b then c else bufGet b j := by
  cases b with
  | none => simp [bufGet, bufSet, bufLen]
  | some l =>
    simp only [bufGet, bufSet, bufLen, Option.map_some', Option.getD_some,
      List.getD_eq_getElem?_getD, List.getElem?_set]
    by_cases hij : i = j
    · subst hij
      by_cases hl : i < l.length
      · simp [hl]
      · simp [hl, List.getElem?_eq_none (Nat.le_of_not_lt hl)]
    · simp [hij]

end MyVector

namespace MyVector

/-! ### Loop characterizations -/

theorem moveAll_length (old : Option (List (Cell α))) :
    ∀ (k i : Nat) (nw : List (Cell α)), (moveAll old nw i k).length = nw.length := by
  intro k
  induction k with
  | zero => intro i nw; rfl
  | succ k ih => intro i nw; simp only [moveAll]; rw [ih]; simp

theorem moveAll_getD (old : Option (List (Cell α))) :
    ∀ (k i : Nat) (nw : List (Cell α)) (j : Nat),
      (moveAll old nw i k).getD j Cell.uninit =
        if i ≤ j ∧ j < i + k ∧ j < nw.length then (bufGet old j).moveTarget
        else nw.getD j Cell.uninit := by
  intro k
  induction k with
  | zero =>
    intro i nw j
    rw [moveAll, if_neg (by omega)]
  | succ k ih =>
    intro i nw j
    simp only [moveAll]
    rw [ih]
    simp only [List.length_set]
    by_cases hij : j = i
    · subst hij
      by_cases hl : j < nw.length
      · rw [if_neg (by omega), if_pos (by omega)]
        rw [List.getD_eq_getElem?_getD, List.getElem?_set_self hl]
        rfl
      · rw [if_neg (by omega), if_neg (by omega),
          List.set_eq_of_length_le (by omega)]
    · have hset : (nw.set i ((bufGet old i).moveTarget)).getD j Cell.uninit =
          nw.getD j Cell.uninit := by
        rw [List.getD_eq_getElem?_getD, List.getElem?_set_ne (by omega),
          List.getD_eq_getElem?_getD]
      have hiff : (i + 1 ≤ j ∧ j < i + 1 + k ∧ j < nw.length) ↔
          (i ≤ j ∧ j < i + (k + 1) ∧ j < nw.length) := by omega
      rw [if_congr hiff rfl hset]

theorem destroyRange_len :
    ∀ (k i : Nat) (b : Option (List (Cell α))), bufLen (destroyRange b i k) = bufLen b := by
  intro k
  induction k with
  | zero => intro i b; rfl
  | succ k ih => intro i b; simp only [destroyRange]; rw [ih, bufLen_bufSet]

theorem destroyRange_isSome :
    ∀ (k i : Nat) (b : Option (List (Cell α))),
      (destroyRange b i k).isSome = b.isSome := by
  intro k
  induction k with
  | zero => intro i b; rfl
  | succ k ih => intro i b; simp only [destroyRange]; rw [ih, isSome_bufSet]

theorem destroyRange_get :
    ∀ (k i : Nat) (b : Option (List (Cell α))) (j : Nat),
      bufGet (destroyRange b i k) j =
        if i ≤ j ∧ j < i + k then Cell.uninit else bufGet b j := by
  intro k
  induction k with
  | zero => intro i b j; rw [destroyRange, if_neg (by omega)]
  | succ k ih =>
    intro i b j
    simp only [destroyRange]
    rw [ih]
    by_cases hij : j = i
    · subst hij
      rw [if_neg (by omega), if_pos (by omega), bufGet_bufSet]
      by_cases hl : j < bufLen b
      · rw [if_pos ⟨rfl, hl⟩]
      · rw [if_neg (by tauto), bufGet_oob (by omega)]
    · have hset : bufGet (bufSet b i Cell.uninit) j = bufGet b j := by
        rw [bufGet_bufSet, if_neg (by tauto)]
      have hiff : (i + 1 ≤ j ∧ j < i + 1 + k) ↔ (i ≤ j ∧ j < i + (k + 1)) := by omega
      rw [if_congr hiff rfl hset]

end MyVector

namespace MyVector

/-! ### Well-formed states and their preservation -/

theorem default_good : GoodState (MyVector.default : MyVector α) [] := by
  refine ⟨rfl, Nat.le_refl 0, rfl, ?_⟩
  intro i h
  exact absurd h (by simp)

theorem reallocate_size (v : MyVector α) (n : Nat) : (v.reallocate n).size_ = v.size_ := rfl

theorem reallocate_capacity (v : MyVector α) (n : Nat) : (v.reallocate n).capacity_ = n := rfl

theorem reserve_size (v : MyVector α) (n : Nat) : (v.reserve n).size_ = v.size_ := by
  rw [reserve]; split <;> rfl

theorem reserve_capacity (v : MyVector α) (n : Nat) :
    (v.reserve n).capacity_ = max v.capacity_ n := by
  rw [reserve]
  by_cases h : n ≤ v.capacity_
  · rw [if_pos h, Nat.max_eq_left h]
  · rw [if_neg h, reallocate_capacity, Nat.max_eq_right (Nat.le_of_not_le h)]

theorem reallocate_good {v : MyVector α} {xs : List α} (g : GoodState v xs)
    {n : Nat} (hn : v.size_ ≤ n) : GoodState (v.reallocate n) xs := by
  refine ⟨g.size_eq, hn, ?_, ?_⟩
  · show bufLen (some (moveAll v.data_ (List.replicate n Cell.uninit) 0 v.size_)) = n
    simp only [bufLen, Option.getD_some]
    rw [moveAll_length, List.length_replicate]
  · intro i h
    show (moveAll v.data_ (List.replicate n Cell.uninit) 0 v.size_).getD i Cell.uninit =
      Cell.live xs[i]
    rw [moveAll_getD]
    have hsz : v.size_ = xs.length := g.size_eq
    rw [if_pos ⟨Nat.zero_le i, by omega, by rw [List.length_replicate]; omega⟩]
    rw [g.cells i h]
    rfl

theorem reserve_good {v : MyVector α} {xs : List α} (g : GoodState v xs)
    (n : Nat) : GoodState (v.reserve n) xs := by
  rw [reserve]
  by_cases h : n ≤ v.capacity_
  · rw [if_pos h]; exact g
  · rw [if_neg h]
    exact reallocate_good g (Nat.le_of_lt (Nat.lt_of_le_of_lt g.size_le (Nat.lt_of_not_le h)))

theorem construct_good {w : MyVector α} {xs : List α} (g : GoodState w xs)
    (hlt : w.size_ < w.capacity_) (x : α) :
    GoodState
      { w with data_ := bufSet w.data_ w.size_ (Cell.live x), size_ := w.size_ + 1 }
      (xs ++ [x]) := by
  refine ⟨?_, ?_, ?_, ?_⟩
  · show w.size_ + 1 = (xs ++ [x]).length
    rw [List.length_append, List.length_singleton, g.size_eq]
  · show w.size_ + 1 ≤ w.capacity_
    omega
  · show bufLen (bufSet w.data_ w.size_ (Cell.live x)) = w.capacity_
    rw [bufLen_bufSet, g.buf_len]
  · intro i h
    show bufGet (bufSet w.data_ w.size_ (Cell.live x)) i = Cell.live (xs ++ [x])[i]
    rw [bufGet_bufSet]
    have hsz : w.size_ = xs.length := g.size_eq
    rw [List.length_append, List.length_singleton] at h
    by_cases hi : i < xs.length
    · rw [if_neg (by rintro ⟨h1, h2⟩; omega)]
      rw [g.cells i hi, List.getElem_append_left hi]
    · have hie : i = xs.length := by omega
      subst hie
      rw [if_pos ⟨by omega, by rw [g.buf_len]; exact hlt⟩]
      rw [List.getElem_concat_length xs x xs.length rfl]

end MyVector

namespace MyVector

theorem push_back_good {v : MyVector α} {xs : List α} (g : GoodState v xs) (x : α) :
    GoodState (v.push_back x) (xs ++ [x]) := by
  simp only [push_back]
  by_cases h : v.capacity_ ≤ v.size_
  · rw [if_pos h]
    have hsz : v.size_ = v.capacity_ := Nat.le_antisymm g.size_le h
    have hcap : v.capacity_ < (if v.capacity_ ≠ 0 then v.capacity_ * 2 else 1) := by
      by_cases hc : v.capacity_ = 0
      · simp [hc]
      · simp only [hc, ne_eq, not_false_eq_true, if_true]
        omega
    refine construct_good (reserve_good g _) ?_ x
    rw [reserve_size, reserve_capacity, Nat.max_eq_right (Nat.le_of_lt hcap)]
    omega
  · rw [if_neg h]
    exact construct_good g (Nat.lt_of_not_le h) x

theorem pushList_good : ∀ (l : List α) (v : MyVector α) (xs : List α),
    GoodState v xs → GoodState (pushList v l) (xs ++ l) := by
  intro l
  induction l with
  | nil => intro v xs g; rw [pushList]; simpa using g
  | cons a l ih =>
    intro v xs g
    rw [pushList]
    have hgl := ih (v.push_back a) (xs ++ [a]) (push_back_good g a)
    simpa using hgl

theorem clear_size (v : MyVector α) : v.clear.size_ = 0 := rfl

theorem clear_capacity (v : MyVector α) : v.clear.capacity_ = v.capacity_ := rfl

theorem clear_good {v : MyVector α} (h : BufOk v) : GoodState v.clear [] := by
  refine ⟨rfl, Nat.zero_le _, ?_, ?_⟩
  · show bufLen (destroyRange v.data_ 0 v.size_) = v.capacity_
    rw [destroyRange_len]
    exact h
  · intro i hi
    exact absurd hi (by simp)

theorem iterToList_eq {v : MyVector α} {xs : List α} (g : GoodState v xs) :
    iterToList v = xs.map Cell.live := by
  have hlen : bufLen v.data_ = v.capacity_ := g.buf_len
  have hsz : v.size_ = xs.length := g.size_eq
  have hle : v.size_ ≤ v.capacity_ := g.size_le
  simp only [bufLen] at hlen
  apply List.ext_getElem?
  intro n
  by_cases hn : n < xs.length
  · have hbuf : n < (v.data_.getD []).length := by omega
    rw [iterToList, List.getElem?_take_of_lt (by omega)]
    rw [List.getElem?_eq_getElem hbuf, List.getElem?_eq_getElem (by simpa using hn)]
    have hc := g.cells n hn
    simp only [bufGet, List.getD_eq_getElem?_getD, List.getElem?_eq_getElem hbuf,
      Option.getD_some] at hc
    rw [hc, List.getElem_map]
  · rw [iterToList]
    rw [List.getElem?_eq_none (by rw [List.length_take]; omega),
      List.getElem?_eq_none (by rw [List.length_map]; omega)]

end MyVector

namespace MyVector

/-! ### Size and capacity bookkeeping of each public operation -/

theorem push_back_size (v : MyVector α) (x : α) :
    (v.push_back x).size_ = v.size_ + 1 := by
  simp only [push_back]
  by_cases h : v.capacity_ ≤ v.size_
  · rw [if_pos h]
    show (v.reserve _).size_ + 1 = v.size_ + 1
    rw [reserve_size]
  · rw [if_neg h]

theorem push_back_capacity (v : MyVector α) (x : α) :
    (v.push_back x).capacity_ =
      if v.capacity_ ≤ v.size_
        then max v.capacity_ (if v.capacity_ ≠ 0 then v.capacity_ * 2 else 1)
        else v.capacity_ := by
  simp only [push_back]
  by_cases h : v.capacity_ ≤ v.size_
  · rw [if_pos h, if_pos h]
    show (v.reserve _).capacity_ = _
    rw [reserve_capacity]
  · rw [if_neg h, if_neg h]

theorem push_back_inv {v : MyVector α} (x : α) (h : v.size_ ≤ v.capacity_) :
    (v.push_back x).size_ ≤ (v.push_back x).capacity_ := by
  rw [push_back_size, push_back_capacity]
  by_cases hc : v.capacity_ ≤ v.size_
  · rw [if_pos hc]
    have hmax := Nat.le_max_right v.capacity_ (if v.capacity_ ≠ 0 then v.capacity_ * 2 else 1)
    by_cases h0 : v.capacity_ = 0
    · rw [h0] at hmax h hc ⊢
      simp only [ne_eq, not_true_eq_false, if_false] at hmax ⊢
      omega
    · simp only [ne_eq, h0, not_false_eq_true, if_true] at hmax ⊢
      omega
  · rw [if_neg hc]
    omega

theorem pop_back_inv {v : MyVector α} (h : v.size_ ≤ v.capacity_) :
    v.pop_back.size_ ≤ v.pop_back.capacity_ := by
  rw [pop_back]
  by_cases h0 : 0 < v.size_
  · rw [if_pos h0]
    show v.size_ - 1 ≤ v.capacity_
    omega
  · rw [if_neg h0]
    exact h

theorem resize_size [Inhabited α] (v : MyVector α) (n : Nat) :
    (v.resize n).size_ = n := rfl

theorem resize_capacity [Inhabited α] (v : MyVector α) (n : Nat) :
    (v.resize n).capacity_ = v.capacity_ := by
  simp only [resize]
  split
  · rfl
  · split <;> rfl

theorem shrink_inv {v : MyVector α} (f : Nat → Bool) (h : v.size_ ≤ v.capacity_) :
    (v.shrink_to_fitE f).vec.size_ ≤ (v.shrink_to_fitE f).vec.capacity_ := by
  rw [shrink_to_fitE]
  by_cases hc : v.capacity_ = v.size_
  · rw [if_pos hc]
    exact h
  · rw [if_neg hc]
    rcases hm : shrinkLoopE f v.data_ (List.replicate v.size_ Cell.uninit) 0 v.size_
      with ⟨old, nw, res⟩
    cases res with
    | some i => simp only [hm]; exact h
    | none => simp only [hm]; exact Nat.le_refl _

theorem moveAssign_fst (v w : MyVector α) : (v.moveAssign w).1 = MyVector.default := rfl

theorem moveAssign_snd (v w : MyVector α) : (v.moveAssign w).2 = w := rfl

theorem copyAssign_size (v w : MyVector α) : (v.copyAssign w).size_ = w.size_ := rfl

theorem copyAssign_capacity (v w : MyVector α) :
    (v.copyAssign w).capacity_ = max v.capacity_ w.capacity_ := by
  show ((v.clear).reserve w.capacity_).capacity_ = _
  rw [reserve_capacity, clear_capacity]

theorem ctorSized_size (n : Nat) (value : α) : (ctorSized n value).size_ = n := rfl

theorem ctorSized_capacity (n : Nat) (value : α) : (ctorSized n value).capacity_ = n := by
  show ((MyVector.default : MyVector α).reserve n).capacity_ = n
  rw [reserve_capacity]
  exact Nat.zero_max n

theorem ctorRange_size (xs : List α) : (ctorRange xs).size_ = xs.length := rfl

theorem ctorRange_capacity (xs : List α) : (ctorRange xs).capacity_ = xs.length := by
  show ((MyVector.default : MyVector α).reserve xs.length).capacity_ = xs.length
  rw [reserve_capacity]
  exact Nat.zero_max xs.length

theorem assing_inv (v : MyVector α) (val : α) :
    ∀ n, (v.assing n val).size_ ≤ (v.assing n val).capacity_ := by
  intro n
  induction n with
  | zero => exact Nat.zero_le _
  | succ n ih => exact push_back_inv val ih

end MyVector

namespace MyVector

/-! ### The reallocation loop under an injected constructor failure -/

theorem moveLoopE_fail {f : Nat → Bool} {i0 : Nat} (hf : f i0 = true)
    (hmin : ∀ j, j < i0 → f j = false) :
    ∀ (k i : Nat) (old : Option (List (Cell α))) (nw : List (Cell α)),
      i ≤ i0 → i0 < i + k →
      (moveLoopE f old nw i k).2.2 = some i0 ∧
      ∀ j, bufGet (moveLoopE f old nw i k).1 j =
        if i ≤ j ∧ j < i0 then Cell.uninit else bufGet old j := by
  intro k
  induction k with
  | zero => intro i old nw h1 h2; omega
  | succ k ih =>
    intro i old nw h1 h2
    by_cases hi : i = i0
    · subst hi
      simp only [moveLoopE, hf, if_true]
      refine ⟨by trivial, ?_⟩
      intro j
      rw [if_neg (by omega)]
    · have hfi : f i = false := hmin i (by omega)
      simp only [moveLoopE, hfi, Bool.false_eq_true, if_false]
      have hrec := ih (i + 1) (bufSet old i Cell.uninit)
        (nw.set i (bufGet old i).moveTarget) (by omega) (by omega)
      refine ⟨hrec.1, ?_⟩
      intro j
      rw [hrec.2 j]
      by_cases hj : j = i
      · subst hj
        rw [if_neg (by omega), if_pos (by omega), bufGet_bufSet]
        by_cases hl : j < bufLen old
        · rw [if_pos ⟨rfl, hl⟩]
        · rw [if_neg (by tauto), bufGet_oob (by omega)]
      · have hset : bufGet (bufSet old i Cell.uninit) j = bufGet old j := by
          rw [bufGet_bufSet, if_neg (by tauto)]
        have hiff : (i + 1 ≤ j ∧ j < i0) ↔ (i ≤ j ∧ j < i0) := by omega
        rw [if_congr hiff rfl hset]

/-- C3 (amended): if an injected failing element constructor throws at step
`i0` of the reallocation triggered by a `push_back` on a full vector, then
after the call the vector's size and capacity are unchanged and the elements
from position `i0` onward are intact in their original order — but the
elements at positions `[0, i0)`, already moved to the new buffer and
destroyed before the failure, are lost (the old-buffer teardown caveat the
specification itself documents for the current reallocation scheme). -/
theorem c3_push_back_realloc_failure {v : MyVector α} {xs : List α} (g : GoodState v xs)
    (hfull : v.capacity_ = v.size_) (f : Nat → Bool) (i0 : Nat)
    (hf : f i0 = true) (hmin : ∀ j, j < i0 → f j = false) (hi : i0 < v.size_) (x : α) :
    (v.push_backE x f).2 = true ∧
    (v.push_backE x f).1.size_ = v.size_ ∧
    (v.push_backE x f).1.capacity_ = v.capacity_ ∧
    (∀ j, j < i0 → getIdx (v.push_backE x f).1 j = Cell.uninit) ∧
    (∀ j (h : j < xs.length), i0 ≤ j → getIdx (v.push_backE x f).1 j = Cell.live xs[j]) := by
  have hcap0 : v.capacity_ ≠ 0 := by omega
  obtain ⟨hsome, hcells⟩ := moveLoopE_fail hf hmin v.size_ 0 v.data_
    (List.replicate (v.capacity_ * 2) Cell.uninit) (Nat.zero_le _) (by omega)
  rcases hm : moveLoopE f v.data_ (List.replicate (v.capacity_ * 2) Cell.uninit) 0 v.size_
    with ⟨old, nw, res⟩
  rw [hm] at hsome hcells
  simp only at hsome hcells
  subst hsome
  simp only [push_backE, reserveE, reallocateE]
  rw [if_pos (Nat.le_of_eq hfull), if_pos hcap0, if_neg (by omega), hm]
  refine ⟨rfl, rfl, rfl, ?_, ?_⟩
  · intro j hj
    show bufGet old j = Cell.uninit
    rw [hcells j, if_pos ⟨Nat.zero_le j, hj⟩]
  · intro j h hj
    show bufGet old j = Cell.live xs[j]
    rw [hcells j, if_neg (by omega), g.cells j h]

/-! ### The growth-doubling invariant of repeated push_back -/

theorem simulate_succ (x : α) (n : Nat) :
    simulate x (n + 1) = ((simulate x n).1.push_back x,
      if (simulate x n).1.capacity_ ≤ (simulate x n).1.size_
        then (simulate x n).2 + 1 else (simulate x n).2) := rfl

theorem simulate_inv (x : α) :
    ∀ (n : Nat) (v : MyVector α) (k : Nat), simulate x n = (v, k) →
      v.size_ = n ∧ (n = 0 → k = 0 ∧ v.capacity_ = 0) ∧
      (1 ≤ n → 1 ≤ k ∧ v.capacity_ = 2 ^ (k - 1) ∧
        n ≤ v.capacity_ ∧ v.capacity_ < 2 * n) := by
  intro n
  induction n with
  | zero =>
    intro v k h
    rw [simulate] at h
    cases h
    exact ⟨rfl, fun _ => ⟨rfl, rfl⟩, fun h1 => absurd h1 (by omega)⟩
  | succ n ih =>
    intro v k h
    rw [simulate_succ] at h
    rcases hsim : simulate x n with ⟨w, k0⟩
    rw [hsim] at h
    simp only [Prod.mk.injEq] at h
    obtain ⟨hv, hk⟩ := h
    obtain ⟨ihsz, ih0, ihpos⟩ := ih w k0 hsim
    by_cases hn0 : n = 0
    · subst hn0
      obtain ⟨hk00, hcap0⟩ := ih0 rfl
      have hgrow : w.capacity_ ≤ w.size_ := by omega
      rw [if_pos hgrow] at hk
      have hvsz : v.size_ = 1 := by rw [← hv, push_back_size]; omega
      have hvcap : v.capacity_ = 1 := by
        rw [← hv, push_back_capacity, if_pos hgrow, if_neg (by omega)]
        omega
      refine ⟨hvsz, fun h1 => absurd h1 (by omega), fun _ => ?_⟩
      refine ⟨by omega, ?_, by omega, by omega⟩
      have hke : k = 1 := by omega
      rw [hke, hvcap]
      rfl
    · have hn1 : 1 ≤ n := by omega
      obtain ⟨hk1, hcap, hle, hlt⟩ := ihpos hn1
      by_cases hgrow : w.capacity_ ≤ w.size_
      · rw [if_pos hgrow] at hk
        have hcapn : w.capacity_ = n := by omega
        have hcapne : w.capacity_ ≠ 0 := by omega
        have hvsz : v.size_ = n + 1 := by rw [← hv, push_back_size]; omega
        have hvcap : v.capacity_ = w.capacity_ * 2 := by
          rw [← hv, push_back_capacity, if_pos hgrow, if_pos hcapne]
          omega
        refine ⟨hvsz, fun h1 => absurd h1 (by omega), fun _ => ?_⟩
        refine ⟨by omega, ?_, by omega, by omega⟩
        rw [hvcap, ← hk, hcap]
        have hpow : 2 ^ (k0 - 1) * 2 = 2 ^ (k0 - 1 + 1) := (pow_succ 2 (k0 - 1)).symm
        rw [hpow]
        congr 1
        omega
      · rw [if_neg hgrow] at hk
        have hvsz : v.size_ = n + 1 := by rw [← hv, push_back_size]; omega
        have hvcap : v.capacity_ = w.capacity_ := by
          rw [← hv, push_back_capacity, if_neg hgrow]
        refine ⟨hvsz, fun h1 => absurd h1 (by omega), fun _ => ?_⟩
        refine ⟨by omega, ?_, by omega, by omega⟩
        rw [hvcap, ← hk, hcap]

end MyVector

namespace MyVector

theorem pushList_snoc (w : MyVector α) (l : List α) (x : α) :
    pushList w (l ++ [x]) = (pushList w l).push_back x := by
  induction l generalizing w with
  | nil => rfl
  | cons a l ih => rw [List.cons_append, pushList, pushList, ih]

theorem assing_eq_pushList (v : MyVector α) (val : α) :
    ∀ n, v.assing n val = pushList v.clear (List.replicate n val) := by
  intro n
  induction n with
  | zero => rfl
  | succ n ih =>
    show (v.assing n val).push_back val = _
    rw [ih, List.replicate_succ', pushList_snoc]

end MyVector

open MyVector

/-! ### The claims -/

/-- C1: the spec claims that after a non-self move assignment of `A` into
`B`, `B` holds `A`'s prior buffer, size, capacity and elements and `A` is
left empty.  The code instead nulls out `B` itself (its final statements
`data_ = nullptr; size_ = 0; capacity_ = 0;` assign the members of the
assigned-to object) and never writes `A`: at the concrete input
`A = [5]`, `B = {}`, after `B = std::move(A)` the target `B` is empty and
the source `A` still holds its buffer and one element. -/
theorem c1_moveAssign_nulls_target_keeps_source :
    ((MyVector.default : MyVector Nat).moveAssign (pushList MyVector.default [5])).1 =
      MyVector.default ∧
    ((MyVector.default : MyVector Nat).moveAssign (pushList MyVector.default [5])).2 =
      pushList MyVector.default [5] ∧
    (pushList (MyVector.default : MyVector Nat) [5]).size_ = 1 ∧
    (pushList (MyVector.default : MyVector Nat) [5]).capacity_ = 1 ∧
    (pushList (MyVector.default : MyVector Nat) [5]).data_ = some [Cell.live 5] := by
  decide

/-- C2 (counterexample): the claimed invariant `size <= capacity` fails on
the code: from a default-constructed vector, the single public operation
`resize(1)` yields `size_ = 1` with `capacity_ = 0` (the growth branch of
`resize` neither reserves nor constructs). -/
theorem c2_counterexample_resize_breaks_invariant :
    ¬ (((MyVector.default : MyVector Nat).resize 1).size_ ≤
        ((MyVector.default : MyVector Nat).resize 1).capacity_) := by
  decide

/-- C2 (amended): `size_ <= capacity_` holds in every state reachable from a
constructed vector by any sequence of the public operations, provided each
`resize` call satisfies `new_size <= capacity()` — the caller-responsibility
contract for resize growth that the specification flags as an open
question.  Unrestricted `resize` growth violates the invariant. -/
theorem c2_reachable_size_le_capacity [Inhabited α] (v : MyVector α) (h : Reachable v) :
    v.size_ ≤ v.capacity_ := by
  induction h with
  | init => exact Nat.le_refl 0
  | sized n value =>
    rw [ctorSized_size, ctorSized_capacity]
  | ranged xs =>
    rw [ctorRange_size, ctorRange_capacity]
  | push w x hw ih => exact push_back_inv x ih
  | pop w hw ih => exact pop_back_inv ih
  | res w n hw hn ih =>
    rw [resize_size, resize_capacity]
    exact hn
  | resv w n hw ih =>
    rw [reserve_size, reserve_capacity]
    exact Nat.le_trans ih (Nat.le_max_left _ _)
  | clr w hw ih => exact Nat.zero_le _
  | shrink w f hw ih => exact shrink_inv f ih
  | swapL w u hw hu ihw ihu => exact ihu
  | swapR w u hw hu ihw ihu => exact ihw
  | mvAsgL w u hw hu ihw ihu => exact Nat.le_refl 0
  | mvAsgR w u hw hu ihw ihu => exact ihu
  | cpAsg w u hw hu ihw ihu =>
    rw [copyAssign_size, copyAssign_capacity]
    exact Nat.le_trans ihu (Nat.le_max_right _ _)
  | asg w n val hw ih => exact assing_inv w val n

/-- C2 witness: the amended invariant theorem applied to the concrete
reachable state `reserve(5); resize(3)` starting from a default-constructed
vector (the resize respects the capacity contract). -/
theorem c2_witness :
    (((MyVector.default : MyVector Nat).reserve 5).resize 3).size_ ≤
      (((MyVector.default : MyVector Nat).reserve 5).resize 3).capacity_ :=
  c2_reachable_size_le_capacity _
    (Reachable.res _ 3 (Reachable.resv _ 5 Reachable.init) (by decide))

/-- C3 (counterexample): on the full two-element vector `[4, 5]` with an
injected constructor failure at reallocation step 1, `push_back(6)` throws
and leaves size and capacity unchanged — but element 0, which was
`live 4` before the call, has been destroyed, so the original elements are
NOT all intact as the claim states. -/
theorem c3_counterexample_realloc_destroys_prefix :
    getIdx (pushList (MyVector.default : MyVector Nat) [4, 5]) 0 = Cell.live 4 ∧
    ((pushList (MyVector.default : MyVector Nat) [4, 5]).push_backE 6 (fun i => i == 1)).2 = true ∧
    ((pushList (MyVector.default : MyVector Nat) [4, 5]).push_backE 6 (fun i => i == 1)).1.size_ = 2 ∧
    ((pushList (MyVector.default : MyVector Nat) [4, 5]).push_backE 6 (fun i => i == 1)).1.capacity_ = 2 ∧
    getIdx ((pushList (MyVector.default : MyVector Nat) [4, 5]).push_backE 6 (fun i => i == 1)).1 0 =
      Cell.uninit := by
  decide

/-- C3 witness: the amended reallocation-failure theorem applied to the
concrete full vector `[7, 8]` with the failure injected at step 1. -/
theorem c3_witness :
    ((pushList (MyVector.default : MyVector Nat) [7, 8]).push_backE 9 (fun i => i == 1)).2 = true ∧
    ((pushList (MyVector.default : MyVector Nat) [7, 8]).push_backE 9 (fun i => i == 1)).1.size_ =
      (pushList (MyVector.default : MyVector Nat) [7, 8]).size_ ∧
    getIdx ((pushList (MyVector.default : MyVector Nat) [7, 8]).push_backE 9 (fun i => i == 1)).1 1 =
      Cell.live 8 := by
  have g : GoodState (pushList (MyVector.default : MyVector Nat) [7, 8]) [7, 8] :=
    pushList_good [7, 8] MyVector.default [] default_good
  have h := c3_push_back_realloc_failure g (by decide) (fun i => i == 1) 1
    (by decide)
    (by
      intro j hj
      have hj0 : j = 0 := by omega
      rw [hj0]
      rfl)
    (by decide) 9
  exact ⟨h.1, h.2.1, h.2.2.2.2 1 (by decide) (by decide)⟩

/-- C4: the spec claims `resize(new_size)` with `new_size > size`
default-constructs the elements of `[size, new_size)`; the code's growth
loop `for (i = new_size; i < size_; ++i)` has its bounds inverted and never
executes.  At the concrete input `[7].resize(2)` the size becomes 2 but
slot 1 remains raw memory (and no capacity was reserved either). -/
theorem c4_resize_growth_constructs_nothing :
    ((pushList (MyVector.default : MyVector Nat) [7]).resize 2).size_ = 2 ∧
    getIdx ((pushList (MyVector.default : MyVector Nat) [7]).resize 2) 1 = Cell.uninit ∧
    ((pushList (MyVector.default : MyVector Nat) [7]).resize 2).capacity_ = 1 := by
  decide

/-- C5: after pushing the `N` values of any list onto a default-constructed
vector, the size is `N`, the `i`-th pushed value is retrievable at position
`i` both by unchecked indexing and by checked `at`, and forward iteration
from `begin()` to `end()` visits exactly the pushed values in insertion
order. -/
theorem c5_pushList_size_and_insertion_order (vs : List α) :
    (pushList (MyVector.default : MyVector α) vs).size_ = vs.length ∧
    (∀ i (h : i < vs.length),
      getIdx (pushList (MyVector.default : MyVector α) vs) i = Cell.live vs[i]) ∧
    (∀ i (h : i < vs.length),
      (pushList (MyVector.default : MyVector α) vs).at_ i = Except.ok (Cell.live vs[i])) ∧
    iterToList (pushList (MyVector.default : MyVector α) vs) = vs.map Cell.live := by
  have g : GoodState (pushList (MyVector.default : MyVector α) vs) vs :=
    pushList_good vs MyVector.default [] default_good
  refine ⟨g.size_eq, ?_, ?_, iterToList_eq g⟩
  · intro i h
    exact g.cells i h
  · intro i h
    rw [at_, if_neg (by rw [g.size_eq]; omega)]
    exact congrArg Except.ok (g.cells i h)

/-- C5 witness: the insertion-order theorem applied to the concrete list
`[4, 5, 6]`. -/
theorem c5_witness :
    (pushList (MyVector.default : MyVector Nat) [4, 5, 6]).size_ = 3 ∧
    getIdx (pushList (MyVector.default : MyVector Nat) [4, 5, 6]) 2 = Cell.live 6 ∧
    iterToList (pushList (MyVector.default : MyVector Nat) [4, 5, 6]) =
      [Cell.live 4, Cell.live 5, Cell.live 6] :=
  ⟨(c5_pushList_size_and_insertion_order [4, 5, 6]).1,
   (c5_pushList_size_and_insertion_order [4, 5, 6]).2.1 2 (by decide),
   (c5_pushList_size_and_insertion_order [4, 5, 6]).2.2.2⟩

/-- C6: starting from empty under repeated `push_back`, once at least one
growth event has happened the capacity equals `max 1 (2 ^ (k - 1))` where
`k` is the number of growth events so far (capacity only changes at growth
events, so this is the capacity after the `k`-th growth event); and a
`push_back` on a vector with `size_ < capacity_` never reallocates — the
capacity is unchanged and the element is constructed in place in the
existing buffer. -/
theorem c6_growth_doubling (x : α) (n : Nat) (hk : 1 ≤ (simulate x n).2) :
    (simulate x n).1.capacity_ = max 1 (2 ^ ((simulate x n).2 - 1)) ∧
    ∀ (w : MyVector α) (y : α), w.size_ < w.capacity_ →
      (w.push_back y).capacity_ = w.capacity_ ∧
      (w.push_back y).data_ = bufSet w.data_ w.size_ (Cell.live y) := by
  constructor
  · rcases hsim : simulate x n with ⟨v, k⟩
    rw [hsim] at hk
    simp only at hk ⊢
    obtain ⟨hsz, h0, hpos⟩ := simulate_inv x n v k hsim
    have hn1 : 1 ≤ n := by
      by_contra hc
      have hn0 : n = 0 := by omega
      obtain ⟨hk0, hcz⟩ := h0 hn0
      omega
    obtain ⟨hk1, hcap, hle, hlt⟩ := hpos hn1
    rw [hcap, Nat.max_eq_right Nat.one_le_two_pow]
  · intro w y hlt
    constructor
    · rw [push_back_capacity, if_neg (by omega)]
    · simp only [push_back]
      rw [if_neg (by omega)]

/-- C6 witness: the growth-doubling theorem applied after three pushes
(three growth events, capacity `4 = max 1 (2 ^ 2)`), and the
no-reallocation part applied to the concrete vector `[5, 6, 7]` whose
size 3 is below its capacity 4. -/
theorem c6_witness :
    (simulate (0 : Nat) 3).1.capacity_ = max 1 (2 ^ ((simulate (0 : Nat) 3).2 - 1)) ∧
    ((pushList (MyVector.default : MyVector Nat) [5, 6, 7]).push_back 8).capacity_ =
      (pushList (MyVector.default : MyVector Nat) [5, 6, 7]).capacity_ :=
  ⟨(c6_growth_doubling 0 3 (by decide)).1,
   ((c6_growth_doubling 0 3 (by decide)).2 (pushList MyVector.default [5, 6, 7]) 8
      (by decide)).1⟩

/-- C7: `at(i)` fails with the out-of-range error exactly when
`i >= size()` (the embedding of `at` is a pure function of the vector, so
it mutates nothing); `front()` and `back()` fail with the empty-container
error exactly when `size() == 0`; and `pop_back()` on an empty vector is a
no-op returning the vector unchanged. -/
theorem c7_boundary_errors (v : MyVector α) (i : Nat) :
    (v.at_ i = Except.error VecError.outOfRange ↔ v.size_ ≤ i) ∧
    (v.front = Except.error VecError.emptyContainer ↔ v.size_ = 0) ∧
    (v.back = Except.error VecError.emptyContainer ↔ v.size_ = 0) ∧
    (v.size_ = 0 → v.pop_back = v) := by
  refine ⟨?_, ?_, ?_, ?_⟩
  · rw [at_]
    by_cases h : v.size_ ≤ i
    · simp [h]
    · simp [h]
  · rw [front]
    by_cases h : v.size_ = 0
    · simp [h]
    · simp [h]
  · rw [back]
    by_cases h : v.size_ = 0
    · simp [h]
    · simp [h]
  · intro h
    rw [pop_back, if_neg (by omega)]

/-- C7 witness: the boundary theorem applied to the empty vector at index 0
— `at(size())` fails out-of-range on an empty container, `front` fails
empty-container, and `pop_back` is an identity. -/
theorem c7_witness :
    (MyVector.default : MyVector Nat).pop_back = MyVector.default ∧
    (MyVector.default : MyVector Nat).at_ 0 = Except.error VecError.outOfRange ∧
    (MyVector.default : MyVector Nat).front = Except.error VecError.emptyContainer :=
  ⟨(c7_boundary_errors MyVector.default 0).2.2.2 rfl,
   (c7_boundary_errors MyVector.default 0).1.mpr (Nat.le_refl 0),
   (c7_boundary_errors MyVector.default 0).2.1.mpr rfl⟩

/-- C8: the spec claims that when a move constructor throws during
`shrink_to_fit` the new buffer is destroyed and released including the
elements already constructed in it, and the original vector is unchanged.
The catch block of the code deallocates the new buffer WITHOUT destroying
the constructed elements, and the original elements moved before the
failure are left moved-from: at the concrete input `[4, 5, 6]` (size 3,
capacity 4) with a failure at step 1, the freed new buffer still contains
the live element `4`, and slot 0 of the original is moved-from rather than
`live 4`. -/
theorem c8_shrink_failure_leaks_constructed_elements :
    ((pushList (MyVector.default : MyVector Nat) [4, 5, 6]).shrink_to_fitE (fun i => i == 1)).threw =
      true ∧
    ((pushList (MyVector.default : MyVector Nat) [4, 5, 6]).shrink_to_fitE (fun i => i == 1)).freedNew =
      some [Cell.live 4, Cell.uninit, Cell.uninit] ∧
    getIdx (pushList (MyVector.default : MyVector Nat) [4, 5, 6]) 0 = Cell.live 4 ∧
    getIdx ((pushList (MyVector.default : MyVector Nat) [4, 5, 6]).shrink_to_fitE
      (fun i => i == 1)).vec 0 = Cell.moved ∧
    ((pushList (MyVector.default : MyVector Nat) [4, 5, 6]).shrink_to_fitE
      (fun i => i == 1)).vec.size_ = 3 ∧
    ((pushList (MyVector.default : MyVector Nat) [4, 5, 6]).shrink_to_fitE
      (fun i => i == 1)).vec.capacity_ = 4 := by
  decide

/-- C9 (counterexample): after `clear()` on the one-element vector `[3]`
(whose capacity 1 is positive), the public accessor `data()` returns the
null pointer — not a non-null pointer as the claim states — because
`data()` returns `nullptr` whenever the vector is empty. -/
theorem c9_counterexample_data_null_after_clear :
    0 < (pushList (MyVector.default : MyVector Nat) [3]).capacity_ ∧
    MyVector.data ((pushList (MyVector.default : MyVector Nat) [3]).clear) = none := by
  decide

/-- C9 (amended): `clear()` destroys all live elements (slots `[0, size)`
become raw memory, slots beyond are untouched) and sets size to 0 while
leaving the capacity and the internal buffer allocation unchanged; but the
public `data()` accessor returns the null pointer after `clear()`, since
the vector is then empty (the internal buffer pointer itself remains
non-null exactly when it was non-null before). -/
theorem c9_clear_destroys_and_data_is_null (v : MyVector α) :
    v.clear.size_ = 0 ∧
    v.clear.capacity_ = v.capacity_ ∧
    (∀ i, i < v.size_ → getIdx v.clear i = Cell.uninit) ∧
    (∀ i, v.size_ ≤ i → getIdx v.clear i = getIdx v i) ∧
    v.clear.data_.isSome = v.data_.isSome ∧
    v.clear.data = none := by
  refine ⟨rfl, rfl, ?_, ?_, ?_, rfl⟩
  · intro i hi
    show bufGet (destroyRange v.data_ 0 v.size_) i = Cell.uninit
    rw [destroyRange_get, if_pos ⟨Nat.zero_le i, by omega⟩]
  · intro i hi
    show bufGet (destroyRange v.data_ 0 v.size_) i = bufGet v.data_ i
    rw [destroyRange_get, if_neg (by omega)]
  · show (destroyRange v.data_ 0 v.size_).isSome = v.data_.isSome
    rw [destroyRange_isSome]

/-- C9 witness: the amended clear theorem applied to the concrete vector
`[3]`. -/
theorem c9_witness :
    (pushList (MyVector.default : MyVector Nat) [3]).clear.size_ = 0 ∧
    getIdx (pushList (MyVector.default : MyVector Nat) [3]).clear 0 = Cell.uninit ∧
    (pushList (MyVector.default : MyVector Nat) [3]).clear.data = none :=
  ⟨(c9_clear_destroys_and_data_is_null (pushList MyVector.default [3])).1,
   (c9_clear_destroys_and_data_is_null (pushList MyVector.default [3])).2.2.1 0 (by decide),
   (c9_clear_destroys_and_data_is_null (pushList MyVector.default [3])).2.2.2.2.2⟩

/-- C10: for any well-formed vector, `assing(n, val)` destroys the current
elements and then appends `n` elements, after which the size is `n` and
every slot in `[0, n)` holds `val`. -/
theorem c10_assing_clears_then_fills (v : MyVector α) (n : Nat) (val : α) (h : BufOk v) :
    (v.assing n val).size_ = n ∧
    ∀ i, i < n → getIdx (v.assing n val) i = Cell.live val := by
  rw [assing_eq_pushList]
  have g : GoodState (pushList v.clear (List.replicate n val)) (List.replicate n val) :=
    pushList_good (List.replicate n val) v.clear [] (clear_good h)
  constructor
  · rw [g.size_eq, List.length_replicate]
  · intro i hi
    have hc := g.cells i (by rw [List.length_replicate]; omega)
    rw [getIdx, hc, List.getElem_replicate]

/-- C10 witness: the `assing` theorem applied to the concrete vector `[9]`
with `assing(2, 7)`. -/
theorem c10_witness :
    ((pushList (MyVector.default : MyVector Nat) [9]).assing 2 7).size_ = 2 ∧
    getIdx ((pushList (MyVector.default : MyVector Nat) [9]).assing 2 7) 1 = Cell.live 7 :=
  ⟨(c10_assing_clears_then_fills (pushList MyVector.default [9]) 2 7
      (by
        show bufLen (pushList (MyVector.default : MyVector Nat) [9]).data_ =
          (pushList (MyVector.default : MyVector Nat) [9]).capacity_
        decide)).1,
   (c10_assing_clears_then_fills (pushList MyVector.default [9]) 2 7
      (by
        show bufLen (pushList (MyVector.default : MyVector Nat) [9]).data_ =
          (pushList (MyVector.default : MyVector Nat) [9]).capacity_
        decide)).2 1
     (by decide)⟩
